import Mathlib

/-!
Shallow embedding of the `ethaddr` crate's core codec: hex-string parsing
(`src/hex.rs`), EIP-55 checksummed formatting (`src/checksum.rs`), the
stack formatting buffer (`src/buffer.rs`), and the string-parsing entry
points of `Address` (`src/lib.rs`).

Conventions of the embedding:
- Rust `u8` bytes become `Nat` (every arithmetic step below stays under 256,
  which is noted where it matters, so no wraparound modelling is needed).
- Rust `&str` inputs become their UTF-8 byte sequences, `List Nat`.
- `MaybeUninit<u8>` buffers become `List (Option Nat)`, `none` marking a
  byte that has not been written.
- `mem::transmute` of a staging buffer to `[u8; N]` is modelled by
  defaulting each still-uninitialized slot to an arbitrary value supplied
  by a `junk : Nat → Nat` parameter (indexed by buffer position), so that
  theorems quantify over every value the uninitialized memory could hold.
- The external Keccak-256 primitive (`keccak256`, supplied by the `sha3` /
  `tiny-keccak` crates) is an abstract parameter `keccak256 : List Nat →
  List Nat`; theorems quantify over it.
-/

namespace Ethaddr

/-- Decidable equality for `Except`, so the codec can be evaluated on concrete
inputs by `decide`. -/
instance {ε α : Type} [DecidableEq ε] [DecidableEq α] : DecidableEq (Except ε α) := fun a b =>
  match a, b with
  | .ok x, .ok y => if h : x = y then .isTrue (by rw [h]) else .isFalse (by simp [h])
  | .error x, .error y => if h : x = y then .isTrue (by rw [h]) else .isFalse (by simp [h])
  | .ok _, .error _ => .isFalse (by simp)
  | .error _, .ok _ => .isFalse (by simp)

/-- Parse errors of `src/hex.rs` (`ParseAddressError`). -/
inductive ParseAddressError
  | invalidLength (len : Nat)
  | invalidHexCharacter (c : Nat) (index : Nat)
  | checksumMismatch
deriving DecidableEq, Repr

namespace Hex

/-- Embeds `strip_0x_prefix` of `src/hex.rs`: `s.strip_prefix("0x").unwrap_or(s)`.
Rust's `strip_prefix("0x")` matches exactly the two bytes `b'0', b'x'`
(48, 120), case sensitively. -/
def strip_0x_prefix (s : List Nat) : List Nat :=
  match s with
  | 48 :: 120 :: rest => rest
  | _ => s

/-- Embeds the `nibble` closure of `src/hex.rs::decode`: hex digit value of an
ASCII byte. -/
def nibble (c : Nat) : Option Nat :=
  if 48 ≤ c ∧ c ≤ 57 then some (c - 48)
  else if 65 ≤ c ∧ c ≤ 70 then some (c - 65 + 0xa)
  else if 97 ≤ c ∧ c ≤ 102 then some (c - 97 + 0xa)
  else none

/-- The two-byte chunks produced by `s.as_bytes().chunks(2)` in
`src/hex.rs::decode`. `decode` only reaches the chunk loop once the length is
exactly 40, so every chunk has two bytes; a trailing odd element (which for
`chunks(2)` on an odd-length slice would make `ch[1]` panic) cannot occur and
is dropped here. -/
def pairs : List Nat → List (Nat × Nat)
  | hi :: lo :: rest => (hi, lo) :: pairs rest
  | _ => []

/-- Embeds the chunk loop of `src/hex.rs::decode` (lines 23-36): for chunk
`i`, parse the high then the low nibble, failing at the first invalid byte
with its character index `i * 2` or `i * 2 + 1`, and write byte `i` of the
`MaybeUninit` staging array (`bytes[i].write((hi << 4) + lo)`). `buf` is the
staging array, `none` meaning still uninitialized. -/
def decodeWrites : List (Nat × Nat) → Nat → List (Option Nat) →
    Except ParseAddressError (List (Option Nat))
  | [], _, buf => .ok buf
  | (hi, lo) :: rest, i, buf =>
    match nibble hi with
    | none => .error (.invalidHexCharacter hi (i * 2))
    | some h =>
      match nibble lo with
      | none => .error (.invalidHexCharacter lo (i * 2 + 1))
      | some l => decodeWrites rest (i + 1) (buf.set i (some (h * 16 + l)))

/-- Embeds `src/hex.rs::decode` after the prefix strip: the length-40 check
(lines 11-13, failing with `InvalidLength { len }`), then the chunk loop, then
the `mem::transmute` of the 20-slot staging array (line 38). The transmute is
modelled by defaulting any uninitialized slot to 0; `decode_initialized`
proves that every slot has in fact been written when the loop succeeds, so
the default is never exercised. -/
def decodeCore (s : List Nat) : Except ParseAddressError (List Nat) :=
  if s.length ≠ 40 then .error (.invalidLength s.length)
  else
    match decodeWrites (pairs s) 0 (List.replicate 20 none) with
    | .error e => .error e
    | .ok buf => .ok (buf.map (fun o => o.getD 0))

/-- Embeds `src/hex.rs::decode` (line 9): strip at most one leading `0x`,
then decode the remaining bytes. -/
def decode (s : List Nat) : Except ParseAddressError (List Nat) :=
  decodeCore ( strip_0x_prefix s)

end Hex

namespace Checksum

/-- Length of a formatted address, `src/checksum.rs` (`const LEN: usize = 42`). -/
def LEN : Nat := 42

/-- ASCII upper-casing of one byte, `u8::to_ascii_uppercase`. -/
def to_ascii_uppercase (c : Nat) : Nat :=
  if 97 ≤ c ∧ c ≤ 122 then c - 32 else c

/-- Embeds the write loop of `src/checksum.rs::fmt` (lines 20-24): for address
byte `i`, write `b'0' + (byte >> 1)` at position `i * 2` and `b'0' + (byte & 0xf)`
at position `i * 2 + 1` of the staging buffer. Both sums stay below 256
(`byte >> 1 ≤ 127`), so plain `Nat` addition matches the `u8` arithmetic. -/
def fmtWrites : List Nat → Nat → List (Option Nat) → List (Option Nat)
  | [], _, buf => buf
  | byte :: rest, i, buf =>
    fmtWrites rest (i + 1)
      ((buf.set (i * 2) (some (48 + byte / 2))).set (i * 2 + 1) (some (48 + byte % 16)))

/-- The 42-slot staging buffer of `src/checksum.rs::fmt` at the transmute
point (line 27): all slots uninitialized, then `buffer[0] = b'0'`,
`buffer[1] = b'x'` (lines 17-18), then the write loop over the 20 address
bytes. -/
def fmtStaging (address : List Nat) : List (Option Nat) :=
  fmtWrites address 0 (((List.replicate LEN none).set 0 (some 48)).set 1 (some 120))

/-- Models the `mem::transmute` of the staging buffer to `[u8; 42]`
(`src/checksum.rs` line 27): a slot that was written keeps its byte; a slot
that is still uninitialized yields an arbitrary value `junk i` (reading it is
undefined behavior in the source, so theorems quantify over `junk`). -/
def transmute (junk : Nat → Nat) : Nat → List (Option Nat) → List Nat
  | _, [] => []
  | i, o :: rest => o.getD (junk i) :: transmute junk (i + 1) rest

/-- Embeds the checksum pass of `src/checksum.rs::fmt` (lines 30-37) over
`addr = &mut buffer[2..]`: for position `i`, take digest nibble
`0xf & (digest[i / 2] >> 4)` when `i` is even and `0xf & digest[i / 2]` when
odd, and upper-case the byte when the nibble is at least 8. `digest.getD _ 0`
models indexing into the `[u8; 32]` digest (always in range: `i / 2 ≤ 19`). -/
def checksumApply (digest : List Nat) : Nat → List Nat → List Nat
  | _, [] => []
  | i, c :: rest =>
    let byte := digest.getD (i / 2) 0
    let nib := 0xf &&& (if i % 2 = 0 then byte >>> 4 else byte)
    (if 8 ≤ nib then to_ascii_uppercase c else c) :: checksumApply digest (i + 1) rest

/-- Embeds `src/checksum.rs::fmt` (lines 14-40): build the staging buffer,
transmute it (with `junk` supplying the uninitialized bytes), Keccak-256 the
40 bytes after the first two, apply the checksum casing to those same 40
bytes, and return the whole 42-byte buffer. `keccak256` is the external hash
primitive, kept abstract. -/
def fmt (keccak256 : List Nat → List Nat) (junk : Nat → Nat) (address : List Nat) : List Nat :=
  let buffer := transmute junk 0 (fmtStaging address)
  let addr := buffer.drop 2
  let digest := keccak256 addr
  buffer.take 2 ++ checksumApply digest 0 addr

/-- Modelled from the spec: `checksum::verify` is called by
`Address::from_str_checksum` (src/lib.rs line 151) and by the literal macro,
but its definition is not under src/. Spec §4.2 `verify_checksum`:
"Recomputes `encode_checksummed(bytes)` and compares it, after stripping any
`0x` prefix from both sides, to `candidate` with the same prefix stripped —
comparison is exact, byte-for-byte, case-sensitive"; any mismatch fails. The
recomputation uses this repository's `fmt` above. -/
def verify (keccak256 : List Nat → List Nat) (junk : Nat → Nat) (bytes : List Nat)
    (candidate : List Nat) : Except Unit Unit :=
  if Hex.strip_0x_prefix (fmt keccak256 junk bytes) = Hex.strip_0x_prefix candidate then
    .ok ()
  else
    .error ()

end Checksum

namespace Address

/-- Embeds `Address::from_str_checksum` (src/lib.rs lines 149-153):
`hex::decode(s)?`, then `checksum::verify(&bytes, s)` with any verification
failure mapped to `ParseAddressError::ChecksumMismatch`. -/
def from_str_checksum (keccak256 : List Nat → List Nat) (junk : Nat → Nat) (s : List Nat) :
    Except ParseAddressError (List Nat) :=
  match Hex.decode s with
  | .error e => .error e
  | .ok bytes =>
    match Checksum.verify keccak256 junk bytes s with
    | .error _ => .error .checksumMismatch
    | .ok _ => .ok bytes

/-- Embeds `impl FromStr for Address` (src/lib.rs lines 245-247):
`hex::decode(s).map(Self)`; the `Address` newtype wrapper is the identity on
the 20 bytes here. -/
def from_str (s : List Nat) : Except ParseAddressError (List Nat) :=
  Hex.decode s

end Address

namespace Buffer

/-- Capacity of `FormatBuffer`, `src/buffer.rs` (`const N: usize = 42`). -/
def N : Nat := 42

/-- One past the largest `usize` value (64-bit target). -/
def USIZE : Nat := 2 ^ 64

/-- `usize::checked_add`: `none` on overflow past `2 ^ 64 - 1`. -/
def checkedAdd (a b : Nat) : Option Nat :=
  if a + b < USIZE then some (a + b) else none

/-- Embeds `FormatBuffer` of `src/buffer.rs`: a write offset and a 42-slot
`MaybeUninit` byte buffer (`none` = uninitialized). -/
structure FormatBuffer where
  offset : Nat
  buffer : List (Option Nat)
deriving DecidableEq, Repr

/-- Embeds `FormatBuffer::new` (src/buffer.rs lines 24-29). -/
def FormatBuffer.new : FormatBuffer :=
  ⟨0, List.replicate N none⟩

/-- Models `ptr::copy_nonoverlapping(s.as_ptr(), buffer, s.len())` into the
staging buffer at the given offset (src/buffer.rs lines 65-68). -/
def writeBytes : List (Option Nat) → Nat → List Nat → List (Option Nat)
  | buf, _, [] => buf
  | buf, o, c :: rest => writeBytes (buf.set o (some c)) (o + 1) rest

/-- Embeds `FormatBuffer::write_str` (src/buffer.rs lines 52-72): checked
offset addition (`checked_add`, error on overflow), capacity check
(`end > N`), then the byte copy and offset update. Returns the `fmt::Result`
together with the buffer state after the call (the source mutates `self`). -/
def FormatBuffer.write_str (self : FormatBuffer) (s : List Nat) :
    Except Unit Unit × FormatBuffer :=
  match checkedAdd self.offset s.length with
  | none => (.error (), self)
  | some e =>
    if N < e then (.error (), self)
    else (.ok (), ⟨e, writeBytes self.buffer self.offset s⟩)

end Buffer

/-- The 20-byte test address `[0xee; 20]` used by the crate's own tests. -/
def eeAddr : List Nat :=
  List.replicate 20 0xee

/-- ASCII bytes of `"0xEeeeeEeeeEeEeeEeEeEeeEEEeeeeEeeeeeeeEEeE"`, the EIP-55
canonical form of `[0xee; 20]` asserted by the crate's doctests
(src/lib.rs lines 144-146) and tests (lines 344-360). -/
def eeCanonical : List Nat :=
  [48, 120, 69, 101, 101, 101, 101, 69, 101, 101, 101, 69, 101, 69, 101, 101, 69, 101,
   69, 101, 69, 101, 101, 69, 69, 69, 101, 101, 101, 101, 69, 101, 101, 101, 101, 101,
   101, 101, 69, 69, 101, 69]

/-- ASCII bytes of `"0xeeeeeeeeeeeeeeeeeeeeeeeeeeeeeeeeeeeeeeee"`, the
all-lowercase form of `[0xee; 20]`. -/
def eeLower : List Nat :=
  [48, 120] ++ List.replicate 40 101

/-- ASCII bytes of `"0x90F8bf6A479f320ead074411a4B0e7944Ea8c9C1"` (the claim
C5 / spec §8 scenario string, also the crate's `checksum_address` test). -/
def c5Input : List Nat :=
  [48, 120, 57, 48, 70, 56, 98, 102, 54, 65, 52, 55, 57, 102, 51, 50, 48, 101, 97, 100,
   48, 55, 52, 52, 49, 49, 97, 52, 66, 48, 101, 55, 57, 52, 52, 69, 97, 56, 99, 57, 67, 49]

/-- The 20 bytes `0x90 0xF8 ... 0xC1` that `c5Input` denotes. -/
def c5Bytes : List Nat :=
  [144, 248, 191, 106, 71, 159, 50, 14, 173, 7, 68, 17, 164, 176, 231, 148, 78, 168,
   201, 193]

end Ethaddr

section Sanity

open Ethaddr Ethaddr.Hex

example : decode ([48, 120] ++ List.replicate 40 101) = .ok (List.replicate 20 0xee) := by decide
example : decode (List.replicate 40 101) = .ok (List.replicate 20 0xee) := by decide
example : decode (List.replicate 39 101) = .error (.invalidLength 39) := by decide
example : decode [48, 120, 57, 48, 70, 56, 98, 102, 54, 65, 52, 55, 57, 102, 51, 50,
    48, 101, 97, 100, 48, 55, 52, 52, 49, 49, 97, 52, 66, 48, 101, 55, 57, 52, 52, 69,
    97, 56, 99, 57, 67, 49] =
    .ok [144, 248, 191, 106, 71, 159, 50, 14, 173, 7, 68, 17, 164, 176, 231, 148, 78,
      168, 201, 193] := by decide
example : decode ([48, 120, 122, 122] ++ List.replicate 38 48) =
    .error (.invalidHexCharacter 122 0) := by decide

example :
    (Checksum.fmt (fun _ => List.replicate 32 0) (fun _ => 0) (List.replicate 20 0xee)).take 4 =
      [167, 62, 167, 62] := by decide
example :
    (Checksum.fmt (fun _ => List.replicate 32 0) (fun _ => 0) (List.replicate 20 0xee)).length =
      42 := by decide
example :
    (Checksum.fmt (fun _ => List.replicate 32 0xff) (fun _ => 0)
        (List.replicate 20 0x62)).take 4 = [97, 50, 65, 50] := by decide
example : (Checksum.fmtStaging (List.replicate 20 0xee)).getD 40 (some 0) = none := by decide
example :
    (Buffer.FormatBuffer.new.write_str [48, 120]).1 = .ok () ∧
      (Buffer.FormatBuffer.new.write_str [48, 120]).2.offset = 2 := by decide
example : (Buffer.FormatBuffer.write_str ⟨41, List.replicate 42 none⟩ [48, 120]).1 =
    .error () := by decide

end Sanity

namespace Ethaddr

theorem decode_length_err (s : List Nat) (h : ( Hex.strip_0x_prefix s).length ≠ 40) :
    Hex.decode s = .error (.invalidLength (( Hex.strip_0x_prefix s).length)) := by
  simp [Hex.decode, Hex.decodeCore, h]

theorem strip_cons_cons (a b : Nat) (r : List Nat) (h : ¬(a = 48 ∧ b = 120)) :
    Hex.strip_0x_prefix (a :: b :: r) = a :: b :: r := by
  unfold Hex.strip_0x_prefix
  split
  · next heq =>
      injection heq with h1 h2
      injection h2 with h2 _
      exact absurd ⟨h1, h2⟩ h
  · rfl

theorem pairs_length : ∀ s : List Nat, (Hex.pairs s).length = s.length / 2
  | [] => by simp [Hex.pairs]
  | [_] => by simp [Hex.pairs]
  | _ :: _ :: r => by
    simp [Hex.pairs, pairs_length r]
    omega

theorem decodeWrites_err_shape :
    ∀ (ps : List (Nat × Nat)) (i : Nat) (buf : List (Option Nat)) (e : ParseAddressError),
      Hex.decodeWrites ps i buf = .error e → ∃ c idx, e = .invalidHexCharacter c idx
  | [], _, _, _ => by simp [Hex.decodeWrites]
  | (hi, lo) :: rest, i, buf, e => by
    simp only [Hex.decodeWrites]
    cases hh : Hex.nibble hi with
    | none =>
      intro h
      injection h with h
      exact ⟨hi, i * 2, h.symm⟩
    | some h' =>
      cases hl : Hex.nibble lo with
      | none =>
        intro h
        injection h with h
        exact ⟨lo, i * 2 + 1, h.symm⟩
      | some l' =>
        exact decodeWrites_err_shape rest (i + 1) (buf.set i (some (h' * 16 + l'))) e

theorem decodeWrites_firstBad :
    ∀ (l : List Nat) (i k : Nat) (buf : List (Option Nat)),
      l.length % 2 = 0 → k < l.length →
      Hex.nibble (l.getD k 0) = none →
      (∀ j, j < k → (Hex.nibble (l.getD j 0)).isSome) →
      Hex.decodeWrites (Hex.pairs l) i buf =
        .error (.invalidHexCharacter (l.getD k 0) (i * 2 + k))
  | [], _, k, _ => by intro _ hk; exact absurd hk (by simp)
  | [_], _, _, _ => by intro hpar; simp at hpar
  | a :: b :: r, i, k, buf => by
    intro hpar hk hbad hgood
    match k with
    | 0 =>
      rw [List.getD_cons_zero] at hbad ⊢
      simp [Hex.pairs, Hex.decodeWrites, hbad]
    | 1 =>
      have ha := hgood 0 (by omega)
      rw [List.getD_cons_zero] at ha
      rw [List.getD_cons_succ, List.getD_cons_zero] at hbad ⊢
      obtain ⟨va, hva⟩ := Option.isSome_iff_exists.mp ha
      simp [Hex.pairs, Hex.decodeWrites, hva, hbad]
    | k + 2 =>
      have ha := hgood 0 (by omega)
      have hb := hgood 1 (by omega)
      rw [List.getD_cons_zero] at ha
      rw [List.getD_cons_succ, List.getD_cons_zero] at hb
      rw [List.getD_cons_succ, List.getD_cons_succ] at hbad ⊢
      obtain ⟨va, hva⟩ := Option.isSome_iff_exists.mp ha
      obtain ⟨vb, hvb⟩ := Option.isSome_iff_exists.mp hb
      have hrec := decodeWrites_firstBad r (i + 1) k (buf.set i (some (va * 16 + vb)))
        (by simp at hpar ⊢; omega) (by simp at hk ⊢; omega)
        hbad (fun j hj => by
          have hg := hgood (j + 2) (by omega)
          rwa [List.getD_cons_succ, List.getD_cons_succ] at hg)
      have hidx : (i + 1) * 2 + k = i * 2 + (k + 2) := by omega
      simp only [Hex.pairs, Hex.decodeWrites, hva, hvb]
      rw [hrec, hidx]

theorem decodeWrites_ok_getD :
    ∀ (ps : List (Nat × Nat)) (i : Nat) (buf : List (Option Nat)) (out : List (Option Nat)),
      Hex.decodeWrites ps i buf = .ok out →
      out.length = buf.length ∧
      ∀ j, (i ≤ j → j < i + ps.length → j < buf.length → (out.getD j none).isSome) ∧
        (j < i ∨ i + ps.length ≤ j → out.getD j none = buf.getD j none)
  | [], i, buf, out => by
    intro h
    injection h with h
    subst h
    exact ⟨rfl, fun j => ⟨fun h1 h2 _ => absurd h2 (by simp; omega), fun _ => rfl⟩⟩
  | (hi, lo) :: rest, i, buf, out => by
    simp only [Hex.decodeWrites]
    cases hh : Hex.nibble hi with
    | none => intro h; exact absurd h (by simp)
    | some hv =>
      cases hl : Hex.nibble lo with
      | none => intro h; exact absurd h (by simp)
      | some lv =>
        intro h
        obtain ⟨hlen, hrest⟩ := decodeWrites_ok_getD rest (i + 1) _ out h
        rw [List.length_set] at hlen
        refine ⟨hlen, fun j => ⟨fun h1 h2 h3 => ?_, fun hout => ?_⟩⟩
        · rcases Nat.eq_or_lt_of_le h1 with heq | hlt
          · have huntouched := (hrest j).2 (Or.inl (by omega))
            rw [huntouched]
            subst heq
            have : i < buf.length := h3
            simp [List.getD, List.getElem?_set_self, this]
          · refine (hrest j).1 hlt ?_ ?_
            · simp only [List.length_cons] at h2
              omega
            · rw [List.length_set]
              exact h3
        · have huntouched := (hrest j).2 (by
            simp only [List.length_cons] at hout
            rcases hout with h' | h'
            · exact Or.inl (by omega)
            · exact Or.inr (by omega))
          rw [huntouched]
          have hne : i ≠ j := by
            simp only [List.length_cons] at hout
            omega
          simp [List.getD, List.getElem?_set_ne hne]

theorem decode_staging_initialized (s : List Nat) (buf : List (Option Nat))
    (hlen : ( Hex.strip_0x_prefix s).length = 40)
    (h : Hex.decodeWrites (Hex.pairs ( Hex.strip_0x_prefix s)) 0 (List.replicate 20 none) =
      .ok buf) :
    buf.length = 20 ∧ ∀ j, j < 20 → (buf.getD j none).isSome := by
  obtain ⟨hl, hj⟩ := decodeWrites_ok_getD _ _ _ _ h
  refine ⟨by simpa using hl, fun j hj20 => ?_⟩
  refine (hj j).1 (by omega) ?_ (by simp; omega)
  rw [pairs_length, hlen]
  omega

theorem decode_ok_shape (s : List Nat) (b : List Nat) (h : Hex.decode s = .ok b) :
    b.length = 20 ∧ ( Hex.strip_0x_prefix s).length = 40 := by
  unfold Hex.decode Hex.decodeCore at h
  split at h
  · exact absurd h (by simp)
  · next hlen =>
    split at h
    · exact absurd h (by simp)
    · next buf hw =>
      injection h with h
      subst h
      obtain ⟨hl, _⟩ := decodeWrites_ok_getD _ _ _ _ hw
      simp only [List.length_replicate] at hl
      exact ⟨by simpa using hl, by omega⟩

theorem decode_no_mismatch (s : List Nat) :
    Hex.decode s ≠ .error .checksumMismatch := by
  unfold Hex.decode Hex.decodeCore
  split
  · simp
  · split
    · next e hw =>
      obtain ⟨c, idx, rfl⟩ := decodeWrites_err_shape _ _ _ _ hw
      simp
    · simp

theorem transmute_length (junk : Nat → Nat) :
    ∀ (i : Nat) (l : List (Option Nat)), (Checksum.transmute junk i l).length = l.length
  | _, [] => rfl
  | i, _ :: rest => by
    simp [Checksum.transmute, transmute_length junk (i + 1) rest]

theorem transmute_cons (junk : Nat → Nat) (i : Nat) (o : Option Nat) (l : List (Option Nat)) :
    Checksum.transmute junk i (o :: l) =
      o.getD (junk i) :: Checksum.transmute junk (i + 1) l := rfl

theorem checksumApply_length (d : List Nat) :
    ∀ (i : Nat) (l : List Nat), (Checksum.checksumApply d i l).length = l.length
  | _, [] => rfl
  | i, _ :: rest => by
    simp [Checksum.checksumApply, checksumApply_length d (i + 1) rest]

theorem checksumApply_cons (d : List Nat) (i c : Nat) (l : List Nat) :
    Checksum.checksumApply d i (c :: l) =
      (if 8 ≤ 0xf &&& (if i % 2 = 0 then d.getD (i / 2) 0 >>> 4 else d.getD (i / 2) 0)
        then Checksum.to_ascii_uppercase c else c) :: Checksum.checksumApply d (i + 1) l := rfl

theorem fmt_def (keccak256 : List Nat → List Nat) (junk : Nat → Nat) (a : List Nat) :
    Checksum.fmt keccak256 junk a =
      (Checksum.transmute junk 0 (Checksum.fmtStaging a)).take 2 ++
        Checksum.checksumApply
          (keccak256 ((Checksum.transmute junk 0 (Checksum.fmtStaging a)).drop 2)) 0
          ((Checksum.transmute junk 0 (Checksum.fmtStaging a)).drop 2) := rfl

theorem fmtStaging_ee_shape :
    Checksum.fmtStaging eeAddr =
      some 167 :: some 62 :: some 167 :: (Checksum.fmtStaging eeAddr).drop 3 ∧
    ((Checksum.fmtStaging eeAddr).drop 3).length = 39 := by decide

theorem fmt_ee_shape (keccak256 : List Nat → List Nat) (junk : Nat → Nat) :
    ∃ t, Checksum.fmt keccak256 junk eeAddr = 167 :: 62 :: 167 :: t ∧ t.length = 39 := by
  obtain ⟨hst, hlen⟩ := fmtStaging_ee_shape
  have h167 : Checksum.to_ascii_uppercase 167 = 167 := by decide
  rw [fmt_def, hst, transmute_cons, transmute_cons, transmute_cons]
  simp only [Option.getD_some, List.take_succ_cons, List.take_zero, List.drop_succ_cons,
    List.drop_zero, checksumApply_cons, h167, ite_self, List.cons_append, List.nil_append]
  exact ⟨_, rfl, by rw [checksumApply_length, transmute_length]; exact hlen⟩

/-- Claim C1: the checksummed formatter is claimed to render the 20 bytes as 40
lowercase hex characters (high nibble via `>> 4`), checksum-case them from the
Keccak digest, and prefix the result with `0x`. The code (src/checksum.rs
lines 20-24) instead writes `b'0' + (byte >> 1)` and `b'0' + (byte & 0xf)` at
offsets `i * 2` and `i * 2 + 1`, overwriting the `0x` prefix. Evaluated at the
address `[0xee; 20]`, for every digest function and every value of the
uninitialized bytes: the output starts with bytes 167, 62 instead of
`'0', 'x'` (48, 120), and byte 2 is 167, neither `'e'` (101) nor `'E'` (69) as
the claim requires, refuting the claimed rendering. -/
theorem fmt_misrenders_hex (keccak256 : List Nat → List Nat) (junk : Nat → Nat) :
    (∃ t, Checksum.fmt keccak256 junk eeAddr = 167 :: 62 :: 167 :: t) ∧
    (Checksum.fmt keccak256 junk eeAddr).take 2 ≠ [48, 120] ∧
    (Checksum.fmt keccak256 junk eeAddr).getD 2 0 ≠ 101 ∧
    (Checksum.fmt keccak256 junk eeAddr).getD 2 0 ≠ 69 := by
  obtain ⟨t, ht, -⟩ := fmt_ee_shape keccak256 junk
  rw [ht]
  refine ⟨⟨t, rfl⟩, by simp, ?_, ?_⟩ <;>
    rw [List.getD_cons_succ, List.getD_cons_succ, List.getD_cons_zero] <;> decide

/-- Claim C2: the claimed round-trip `decode (encode_checksummed b) = Ok b`
fails on the code. For the address `[0xee; 20]`, for every digest function and
every value of the uninitialized staging bytes, the formatter's output does
not start with `0x` (so nothing is stripped) and is 42 bytes long, so decoding
it fails with `InvalidLength { len: 42 }` instead of returning the bytes. -/
theorem roundtrip_fails_on_ee (keccak256 : List Nat → List Nat) (junk : Nat → Nat) :
    Hex.decode (Checksum.fmt keccak256 junk eeAddr) = .error (.invalidLength 42) := by
  obtain ⟨t, ht, htl⟩ := fmt_ee_shape keccak256 junk
  rw [ht]
  have hstrip : Hex.strip_0x_prefix (167 :: 62 :: 167 :: t) = 167 :: 62 :: 167 :: t :=
    strip_cons_cons _ _ _ (by simp)
  have hlen : ( Hex.strip_0x_prefix (167 :: 62 :: 167 :: t)).length = 42 := by
    rw [hstrip]
    simp [htl]
  have h := decode_length_err (167 :: 62 :: 167 :: t) (by rw [hlen]; omega)
  rwa [hlen] at h

/-- Claim C3: the claim says `checksum::fmt` writes all 42 bytes of its
staging buffer before transmuting it to an initialized `[u8; 42]`. In the
code the write loop covers offsets `0..=39` only (`j = i * 2` for
`i = 0..=19`, clobbering the prefix written at 0 and 1), so at the transmute
point (src/checksum.rs line 27) slots 40 and 41 of the staging buffer are
still uninitialized — evaluated here at the address `[0xee; 20]`. (The
`hex::decode` half of the claim does hold: see `decode_staging_initialized`.) -/
theorem fmt_staging_uninitialized :
    (Checksum.fmtStaging eeAddr).length = 42 ∧
    (Checksum.fmtStaging eeAddr).getD 40 (some 0) = none ∧
    (Checksum.fmtStaging eeAddr).getD 41 (some 0) = none := by decide

/-- Claim C4: verification recomputes the formatter's output and compares
byte-for-byte after prefix stripping (`checksum::verify`, modelled from the
spec since it is absent from src/). Because the code's formatter never
produces the documented canonical form, `Address::from_str_checksum` rejects
with `ChecksumMismatch` both the canonical string
`"0xEeeeeEeeeEeEeeEeEeEeeEEEeeeeEeeeeeeeEEeE"` (which the crate's own doctest
at src/lib.rs line 144 asserts to be accepted) and the all-lowercase form —
for every digest function and every value of the uninitialized bytes. -/
theorem from_str_checksum_rejects_canonical (keccak256 : List Nat → List Nat)
    (junk : Nat → Nat) :
    Address.from_str_checksum keccak256 junk eeCanonical = .error .checksumMismatch ∧
    Address.from_str_checksum keccak256 junk eeLower = .error .checksumMismatch := by
  obtain ⟨t, ht, htl⟩ := fmt_ee_shape keccak256 junk
  have hfmtlen : (Checksum.fmt keccak256 junk eeAddr).length = 42 := by
    rw [ht]
    simp [htl]
  have hstripf : Hex.strip_0x_prefix (Checksum.fmt keccak256 junk eeAddr) =
      Checksum.fmt keccak256 junk eeAddr := by
    rw [ht]
    exact strip_cons_cons _ _ _ (by simp)
  have hver : ∀ cand : List Nat, ( Hex.strip_0x_prefix cand).length = 40 →
      Checksum.verify keccak256 junk eeAddr cand = .error () := by
    intro cand hcand
    have hne : ¬ ( Hex.strip_0x_prefix (Checksum.fmt keccak256 junk eeAddr) =
        Hex.strip_0x_prefix cand) := by
      intro heq
      have hlens := congrArg List.length heq
      rw [hstripf, hfmtlen, hcand] at hlens
      exact absurd hlens (by decide)
    unfold Checksum.verify
    rw [if_neg hne]
  have hdec1 : Hex.decode eeCanonical = .ok eeAddr := by decide
  have hdec2 : Hex.decode eeLower = .ok eeAddr := by decide
  constructor
  · simp only [Address.from_str_checksum, hdec1, hver eeCanonical (by decide)]
  · simp only [Address.from_str_checksum, hdec2, hver eeLower (by decide)]

/-- Claim C5 counterexample: `"0x90F8bf6A479f320ead074411a4B0e7944Ea8c9C1"`
is 40 characters after prefix strip, not 41 as the claim says, and decoding
it succeeds with the bytes `0x90 0xF8 ... 0xC1` instead of failing with
`InvalidLength { len: 41 }` (it is in fact the crate's own passing
`checksum_address` test input, src/lib.rs lines 344-360). -/
theorem c5_decodes_ok :
    Hex.decode c5Input = .ok c5Bytes ∧
    ( Hex.strip_0x_prefix c5Input).length = 40 ∧
    Hex.decode c5Input ≠ .error (.invalidLength 41) := by decide

/-- Claim C5 (amended): decoding
`"0x90F8bf6A479f320ead074411a4B0e7944Ea8c9C1"` succeeds with
`Ok([0x90, 0xF8, ..., 0xC1])`, since the string is exactly 40 characters
after prefix strip; an input that really is 41 characters after prefix strip
fails with `InvalidLength { len: 41 }`. -/
theorem c5_amended_length41 :
    Hex.decode c5Input = .ok c5Bytes ∧
    ∀ s : List Nat, ( Hex.strip_0x_prefix s).length = 41 →
      Hex.decode s = .error (.invalidLength 41) := by
  refine ⟨by decide, fun s h => ?_⟩
  have hd := decode_length_err s (by rw [h]; omega)
  rwa [h] at hd

/-- Witness for the amended claim C5, at the concrete 41-character input
`"000...0"` (41 zeros). -/
theorem c5_amended_witness :
    ( Hex.strip_0x_prefix (List.replicate 41 48)).length = 41 ∧
    Hex.decode (List.replicate 41 48) = .error (.invalidLength 41) :=
  ⟨by decide, c5_amended_length41.2 (List.replicate 41 48) (by decide)⟩

/-- Claim C6 counterexample: `hex::decode` strips only the exact lowercase
`"0x"` (`s.strip_prefix("0x")`, src/hex.rs line 71), so for the valid
40-character hex string `"ee...e"` the claimed equation
`decode("0X" + hex) == decode(hex)` fails: the left side is
`InvalidLength { len: 42 }` while the right side succeeds. (`'X'` is byte 88.) -/
theorem upperX_not_stripped :
    Hex.decode (48 :: 88 :: List.replicate 40 101) ≠
      Hex.decode (List.replicate 40 101) ∧
    Hex.decode (48 :: 88 :: List.replicate 40 101) = .error (.invalidLength 42) ∧
    Hex.decode (List.replicate 40 101) = .ok eeAddr := by decide

/-- Claim C6 (amended): `hex::decode` strips at most one leading lowercase
`"0x"` prefix (Rust `strip_prefix("0x")` is case-sensitive) before any
validation, so for every valid 40-character hex string `hex`,
`decode("0x" + hex) = decode(hex)`, while `decode("0X" + hex)` is not
stripped and fails with `InvalidLength { len: 42 }`. -/
theorem strip_amended (s : List Nat) (hlen : s.length = 40)
    (hhex : ∀ c ∈ s, (Hex.nibble c).isSome) :
    Hex.decode (48 :: 120 :: s) = Hex.decode s ∧
    Hex.decode (48 :: 88 :: s) = .error (.invalidLength 42) := by
  constructor
  · have h1 : Hex.strip_0x_prefix (48 :: 120 :: s) = s := rfl
    have h2 : Hex.strip_0x_prefix s = s := by
      rcases s with _ | ⟨a, _ | ⟨b, r⟩⟩
      · simp at hlen
      · simp at hlen
      · apply strip_cons_cons
        rintro ⟨rfl, rfl⟩
        have h120 := hhex 120 (by simp)
        exact absurd h120 (by decide)
    unfold Hex.decode
    rw [h1, h2]
  · have h3 : Hex.strip_0x_prefix (48 :: 88 :: s) = 48 :: 88 :: s :=
      strip_cons_cons _ _ _ (by simp)
    have hl42 : ((48 : Nat) :: 88 :: s).length = 42 := by simp [hlen]
    have hd := decode_length_err (48 :: 88 :: s) (by rw [h3, hl42]; omega)
    rwa [h3, hl42] at hd

/-- Witness for the amended claim C6, at the concrete valid hex string
`"ee...e"` (40 times `'e'`). -/
theorem strip_amended_witness :
    Hex.decode (48 :: 120 :: List.replicate 40 101) =
      Hex.decode (List.replicate 40 101) ∧
    Hex.decode (48 :: 88 :: List.replicate 40 101) = .error (.invalidLength 42) :=
  strip_amended (List.replicate 40 101) (by decide) (fun c hc => by
    have hc101 : c = 101 := List.eq_of_mem_replicate hc
    subst hc101
    decide)

/-- Claim C7: for every input whose length after prefix stripping is not
exactly 40, `hex::decode` fails with `InvalidLength { len }` where `len` is
the post-strip length — before any character validation (the statement holds
for arbitrary input bytes, valid hex or not, because the length test at
src/hex.rs lines 11-13 precedes the character loop). -/
theorem decode_invalid_length (s : List Nat)
    (h : ( Hex.strip_0x_prefix s).length ≠ 40) :
    Hex.decode s = .error (.invalidLength (( Hex.strip_0x_prefix s).length)) :=
  decode_length_err s h

/-- Witness for claim C7 at a concrete 39-character input (all `'z'`, so
every character is also invalid hex — yet the length error is reported). -/
theorem decode_invalid_length_witness :
    ( Hex.strip_0x_prefix (List.replicate 39 122)).length ≠ 40 ∧
    Hex.decode (List.replicate 39 122) = .error (.invalidLength 39) := by
  refine ⟨by decide, ?_⟩
  have h := decode_invalid_length (List.replicate 39 122) (by decide)
  have h39 : ( Hex.strip_0x_prefix (List.replicate 39 122)).length = 39 := by decide
  rwa [h39] at h

/-- Claim C8: on a 40-character (post-strip) input, `hex::decode` fails at
the first invalid character `c` at 0-based position `k` of the stripped text
with `InvalidHexCharacter { c, index: k }`; characters after position `k` do
not influence the result (they are universally quantified here). -/
theorem decode_first_invalid_char (s : List Nat) (k : Nat)
    (hlen : ( Hex.strip_0x_prefix s).length = 40) (hk : k < 40)
    (hbad : Hex.nibble (( Hex.strip_0x_prefix s).getD k 0) = none)
    (hgood : ∀ j, j < k → (Hex.nibble (( Hex.strip_0x_prefix s).getD j 0)).isSome) :
    Hex.decode s =
      .error (.invalidHexCharacter (( Hex.strip_0x_prefix s).getD k 0) k) := by
  have hw := decodeWrites_firstBad ( Hex.strip_0x_prefix s) 0 k (List.replicate 20 none)
    (by simp [hlen]) (by rw [hlen]; exact hk) hbad hgood
  unfold Hex.decode Hex.decodeCore
  rw [if_neg (by simp [hlen]), hw]
  simp

/-- Witness for claim C8 at the concrete input `"0xzz00...0"` (two `'z'`
characters then 38 `'0'`s): the first invalid character `'z'` (byte 122) at
index 0 is reported. -/
theorem decode_first_invalid_char_witness :
    Hex.decode ([48, 120, 122, 122] ++ List.replicate 38 48) =
      .error (.invalidHexCharacter 122 0) := by
  have h := decode_first_invalid_char ([48, 120, 122, 122] ++ List.replicate 38 48) 0
    (by decide) (by decide) (by decide) (fun j hj => absurd hj (by omega))
  have hc : ( Hex.strip_0x_prefix ([48, 120, 122, 122] ++ List.replicate 38 48)).getD 0 0 =
      122 := by decide
  rwa [hc] at h

/-- Claim C9: `Address::from_str_checksum` composes decoding and checksum
verification: a decode error (never `ChecksumMismatch`) is returned verbatim
and takes priority; a `ChecksumMismatch` result implies decoding already
produced 20 well-formed bytes; and plain `Address::from_str` is exactly
`hex::decode` and can never return `ChecksumMismatch`. Quantified over the
abstract digest function and the uninitialized-byte values used by the
spec-modelled `checksum::verify`. -/
theorem parse_checksummed_composition (keccak256 : List Nat → List Nat)
    (junk : Nat → Nat) (s : List Nat) :
    (∀ e, Hex.decode s = .error e →
      Address.from_str_checksum keccak256 junk s = .error e ∧ e ≠ .checksumMismatch) ∧
    (Address.from_str_checksum keccak256 junk s = .error .checksumMismatch →
      ∃ b, Hex.decode s = .ok b ∧ b.length = 20) ∧
    Address.from_str s = Hex.decode s ∧
    Address.from_str s ≠ .error .checksumMismatch := by
  refine ⟨fun e he => ⟨?_, ?_⟩, ?_, rfl, decode_no_mismatch s⟩
  · simp [Address.from_str_checksum, he]
  · intro hemis
    subst hemis
    exact absurd he (decode_no_mismatch s)
  · intro hmis
    cases hd : Hex.decode s with
    | error e =>
      simp only [Address.from_str_checksum, hd] at hmis
      injection hmis with hmis
      subst hmis
      exact absurd hd (decode_no_mismatch s)
    | ok b => exact ⟨b, rfl, (decode_ok_shape s b hd).1⟩

/-- Witness for claim C9 at a concrete digest function, junk assignment, and
the 39-character input `"ee...e"`: the decode error is passed through and
`from_str` does not report a checksum mismatch. -/
theorem parse_checksummed_composition_witness :
    Address.from_str_checksum (fun _ => List.replicate 32 0) (fun _ => 0)
      (List.replicate 39 101) = .error (.invalidLength 39) ∧
    Address.from_str (List.replicate 39 101) ≠ .error .checksumMismatch :=
  ⟨((parse_checksummed_composition (fun _ => List.replicate 32 0) (fun _ => 0)
      (List.replicate 39 101)).1 (.invalidLength 39) (by decide)).1,
   (parse_checksummed_composition (fun _ => List.replicate 32 0) (fun _ => 0)
      (List.replicate 39 101)).2.2.2⟩

theorem writeBytes_getD :
    ∀ (s : List Nat) (buf : List (Option Nat)) (o j : Nat),
      (Buffer.writeBytes buf o s).getD j none =
        if o ≤ j ∧ j < o + s.length ∧ j < buf.length then some (s.getD (j - o) 0)
        else buf.getD j none
  | [], buf, o, j => by
    rw [Buffer.writeBytes, if_neg]
    simp
    omega
  | c :: rest, buf, o, j => by
    rw [Buffer.writeBytes, writeBytes_getD rest (buf.set o (some c)) (o + 1) j]
    simp only [List.length_set, List.length_cons]
    rcases Nat.lt_trichotomy j o with hlt | rfl | hgt
    · rw [if_neg (by omega), if_neg (by omega)]
      simp [List.getD, List.getElem?_set_ne (by omega : o ≠ j)]
    · rw [if_neg (by omega)]
      by_cases hb : j < buf.length
      · rw [if_pos ⟨Nat.le_refl j, by omega, hb⟩]
        simp [List.getD, List.getElem?_set_self, hb]
      · rw [if_neg (by omega)]
        rw [List.set_eq_of_length_le (by omega)]
    · by_cases hc2 : j < o + (rest.length + 1) ∧ j < buf.length
      · rw [if_pos ⟨by omega, by omega, hc2.2⟩, if_pos ⟨by omega, hc2.1, hc2.2⟩]
        have hjo : j - o = (j - (o + 1)) + 1 := by omega
        rw [hjo, List.getD_cons_succ]
      · rw [if_neg (by omega), if_neg (by omega)]
        simp [List.getD, List.getElem?_set_ne (by omega : o ≠ j)]

/-- Claim C10: `FormatBuffer::write_str` is atomic and bounded. When
`offset + len(s)` exceeds the 42-byte capacity (which subsumes the
`checked_add` overflow branch, since an overflowing sum also exceeds 42) the
call returns an error and the returned state is the unchanged input buffer.
Otherwise it succeeds, advancing the offset to `offset + len(s)`, writing
exactly the bytes of `s` at `offset..offset + len(s)`, leaving every other
slot untouched, and preserving the invariant that all slots below the
(new) offset are initialized. -/
theorem write_str_atomic (b : Buffer.FormatBuffer) (s : List Nat)
    (hbuf : b.buffer.length = Buffer.N) :
    (Buffer.N < b.offset + s.length → b.write_str s = (.error (), b)) ∧
    (b.offset + s.length ≤ Buffer.N →
      b.write_str s =
        (.ok (), ⟨b.offset + s.length, Buffer.writeBytes b.buffer b.offset s⟩) ∧
      (∀ j, j < s.length →
        (Buffer.writeBytes b.buffer b.offset s).getD (b.offset + j) none =
          some (s.getD j 0)) ∧
      (∀ j, j < b.offset ∨ b.offset + s.length ≤ j →
        (Buffer.writeBytes b.buffer b.offset s).getD j none = b.buffer.getD j none) ∧
      ((∀ i, i < b.offset → (b.buffer.getD i none).isSome) →
        ∀ i, i < b.offset + s.length →
          ((Buffer.writeBytes b.buffer b.offset s).getD i none).isSome)) := by
  constructor
  · intro hgt
    unfold Buffer.FormatBuffer.write_str Buffer.checkedAdd
    by_cases hov : b.offset + s.length < Buffer.USIZE
    · rw [if_pos hov]
      simp only []
      rw [if_pos hgt]
    · rw [if_neg hov]
  · intro hle
    have hov : b.offset + s.length < Buffer.USIZE :=
      Nat.lt_of_le_of_lt hle (by decide)
    refine ⟨?_, fun j hj => ?_, fun j hj => ?_, fun hinv i hi => ?_⟩
    · unfold Buffer.FormatBuffer.write_str Buffer.checkedAdd
      rw [if_pos hov]
      simp only []
      rw [if_neg (by omega)]
    · rw [writeBytes_getD, if_pos ⟨by omega, by omega, by omega⟩]
      have hj' : b.offset + j - b.offset = j := by omega
      rw [hj']
    · rw [writeBytes_getD, if_neg (by omega)]
    · rw [writeBytes_getD]
      by_cases hlo : i < b.offset
      · rw [if_neg (by omega)]
        exact hinv i hlo
      · rw [if_pos ⟨by omega, by omega, by omega⟩]
        simp

/-- Witness for claim C10: a successful two-byte write into a fresh buffer,
and a failed write at offset 41 that leaves the state untouched. -/
theorem write_str_atomic_witness :
    Buffer.FormatBuffer.write_str ⟨0, List.replicate 42 none⟩ [48, 120] =
      (.ok (), ⟨2, Buffer.writeBytes (List.replicate 42 none) 0 [48, 120]⟩) ∧
    Buffer.FormatBuffer.write_str ⟨41, List.replicate 42 none⟩ [48, 120] =
      (.error (), ⟨41, List.replicate 42 none⟩) :=
  ⟨((write_str_atomic ⟨0, List.replicate 42 none⟩ [48, 120] (by decide)).2
      (by decide)).1,
   (write_str_atomic ⟨41, List.replicate 42 none⟩ [48, 120] (by decide)).1
      (by decide)⟩

end Ethaddr
